import Mathlib

/-!
Verification of the rate-limiting core of the codeweaver repository.

The definitions below are a shallow embedding of:
  * the token-bucket record (`RateLimitRecord`, from basic-types),
  * the in-memory store (`MemoryRateLimitStore.getBucket` / `remove` / `removeAll`),
  * the Redis store's atomic Lua refill-and-consume script and the
    post-eval handling in `RedisRateLimitStore.getBucket`, plus
    `bucketKey` / `removeAll` (FLUSHDB),
  * the two enforcement entry points, `rateLimitMiddleware` and the
    `RateLimit` method decorator, reduced to their decision on a fetched
    bucket record (which side effects happen: continuation / original
    method invoked, exceed handler invoked, 429 error thrown),
  * the bucket-id derivation performed by the two entry points.

JavaScript numbers holding token counts and millisecond timestamps are
modelled as `Int` (all arithmetic in the source on these values is
integer arithmetic: `-`, comparisons, decrement).  JS strings are Lean
`String`s.  The mutable `Map` backing the in-memory store, and the Redis
keyspace, are modelled as association lists with set/delete semantics.
-/

/-- Token-bucket record, from `basic-types` (`RateLimitRecord`). -/
structure RateLimitRecord where
  bucketId : String
  rateLimitAllowedCalls : Int
  rateLimitTimeSpan : Int
  tokens : Int
  resetTime : Int
  lastUpdated : Int
  deriving Repr, DecidableEq

/-- The keyed collection backing a store (JS `Map` / the Redis keyspace). -/
abbrev MemStore := List (String × RateLimitRecord)

/-- `Map.get` — first binding for the key, if any. -/
def storeGet (s : MemStore) (bucketId : String) : Option RateLimitRecord :=
  (s.find? (fun p => p.1 == bucketId)).map (fun p => p.2)

/-- `Map.set` — replace any existing binding for the key. -/
def storeSet (s : MemStore) (bucketId : String) (b : RateLimitRecord) : MemStore :=
  (bucketId, b) :: s.filter (fun p => !(p.1 == bucketId))

/-- `Map.delete`. -/
def storeDel (s : MemStore) (bucketId : String) : MemStore :=
  s.filter (fun p => !(p.1 == bucketId))

/-- The record computed by `MemoryRateLimitStore.getBucket` given the
currently stored record (if any) and `now = Date.now()`.  Mirrors the
source exactly: a missing bucket is created with full tokens and is not
consumed from; an existing bucket is reset when
`now - resetTime > rateLimitTimeSpan` (`else`-)or decremented when
`tokens > 0`; `lastUpdated` is always set to `now`. -/
def memGetBucketR (existing : Option RateLimitRecord) (bucketId : String)
    (rateLimitAllowedCalls rateLimitTimeSpan now : Int) : RateLimitRecord :=
  match existing with
  | none =>
      { bucketId := bucketId
        rateLimitAllowedCalls := rateLimitAllowedCalls
        rateLimitTimeSpan := rateLimitTimeSpan
        tokens := rateLimitAllowedCalls
        resetTime := now
        lastUpdated := now }
  | some bucket =>
      let elapsed := now - bucket.resetTime
      let bucket1 :=
        if elapsed > bucket.rateLimitTimeSpan then
          { bucket with resetTime := now, tokens := bucket.rateLimitAllowedCalls }
        else if bucket.tokens > 0 then
          { bucket with tokens := bucket.tokens - 1 }
        else bucket
      { bucket1 with lastUpdated := now }

/-- `MemoryRateLimitStore.getBucket`: returns the record and the updated
store (the source mutates the record in place and `set`s it back). -/
def memGetBucket (s : MemStore) (bucketId : String)
    (rateLimitAllowedCalls rateLimitTimeSpan now : Int) : RateLimitRecord × MemStore :=
  let bucket := memGetBucketR (storeGet s bucketId) bucketId
    rateLimitAllowedCalls rateLimitTimeSpan now
  (bucket, storeSet s bucketId bucket)

/-- The atomic Lua script of `RedisRateLimitStore` (refill + consume),
acting on the hash stored under the bucket's key (if any).  Mirrors the
script line by line: missing fields default to the passed arguments and
`now`; stored `rateLimitAllowedCalls` / `rateLimitTimeSpan` override the
arguments; the reset `if` and the consume `if` are two independent
statements (a reset access is consumed from); all fields are written
back, `lastUpdated := now`. -/
def luaRefillConsume (existing : Option RateLimitRecord) (bucketId : String)
    (rateLimitAllowedCalls rateLimitTimeSpan now : Int) : RateLimitRecord :=
  let tokens0 := match existing with
    | some b => b.tokens
    | none => rateLimitAllowedCalls
  let resetTime0 := match existing with
    | some b => b.resetTime
    | none => now
  let cap := match existing with
    | some b => b.rateLimitAllowedCalls
    | none => rateLimitAllowedCalls
  let win := match existing with
    | some b => b.rateLimitTimeSpan
    | none => rateLimitTimeSpan
  let elapsed := now - resetTime0
  let tokens1 := if elapsed > win then cap else tokens0
  let resetTime1 := if elapsed > win then now else resetTime0
  let tokens2 := if tokens1 > 0 then tokens1 - 1 else tokens1
  { bucketId := bucketId
    rateLimitAllowedCalls := cap
    rateLimitTimeSpan := win
    tokens := tokens2
    resetTime := resetTime1
    lastUpdated := now }

/-- `RedisRateLimitStore.getBucket` after the `eval` call resolved with
`result = [ok, tokens, resetTime, lastUpdated]`.  Returns the record
handed to the caller together with the record persisted by the fallback
`hmset` (`none` when the fallback branch is not taken).  Mirrors the
source: `ok !== 1` silently rebuilds a full bucket and persists it. -/
def redisGetBucketFromEval (evalResult : Int × Int × Int × Int) (bucketId : String)
    (rateLimitAllowedCalls rateLimitTimeSpan now : Int) :
    RateLimitRecord × Option RateLimitRecord :=
  if evalResult.1 ≠ 1 then
    let bucket : RateLimitRecord :=
      { bucketId := bucketId
        rateLimitAllowedCalls := rateLimitAllowedCalls
        rateLimitTimeSpan := rateLimitTimeSpan
        tokens := rateLimitAllowedCalls
        resetTime := now
        lastUpdated := now }
    (bucket, some bucket)
  else
    ({ bucketId := bucketId
       rateLimitAllowedCalls := rateLimitAllowedCalls
       rateLimitTimeSpan := rateLimitTimeSpan
       tokens := evalResult.2.1
       resetTime := evalResult.2.2.1
       lastUpdated := evalResult.2.2.2 }, none)

/-- Outcome of one enforcement-layer invocation: whether the protected
continuation (`next()`) / original method was invoked, whether the
caller-supplied exceed handler was invoked, and whether the 429
`ResponseError` was thrown. -/
structure EnforcementOutcome where
  protectedInvoked : Bool
  exceedHandlerInvoked : Bool
  throws429 : Bool
  deriving Repr, DecidableEq

/-- The decision taken by the Express middleware returned by
`rateLimitMiddleware` once the bucket record is fetched.  Mirrors the
source control flow: `if (bucket.tokens >= 1) next();` — with no
`return` — then unconditionally either `return exceedHandler(next)` or
`throw ResponseError(429)`. -/
def rateLimitMiddleware (bucket : RateLimitRecord) (hasExceedHandler : Bool) :
    EnforcementOutcome :=
  let protectedInvoked := decide (bucket.tokens ≥ 1)
  if hasExceedHandler then
    { protectedInvoked := protectedInvoked
      exceedHandlerInvoked := true
      throws429 := false }
  else
    { protectedInvoked := protectedInvoked
      exceedHandlerInvoked := false
      throws429 := true }

/-- The decision taken by the `RateLimit` method decorator's before-hook
once the bucket record is fetched: `if (bucket.tokens >= 1) return await
method.apply(...)`, else the exceed handler (if any) or the thrown 429
`ResponseError`. -/
def RateLimit (bucket : RateLimitRecord) (hasExceedHandler : Bool) :
    EnforcementOutcome :=
  if bucket.tokens ≥ 1 then
    { protectedInvoked := true
      exceedHandlerInvoked := false
      throws429 := false }
  else if hasExceedHandler then
    { protectedInvoked := false
      exceedHandlerInvoked := true
      throws429 := false }
  else
    { protectedInvoked := false
      exceedHandlerInvoked := false
      throws429 := true }

/-- Whether the middleware invokes the protected continuation. -/
def mwAdmits (bucket : RateLimitRecord) (hasExceedHandler : Bool) : Bool :=
  (rateLimitMiddleware bucket hasExceedHandler).protectedInvoked

/-- Whether the decorator invokes the original method. -/
def decAdmits (bucket : RateLimitRecord) (hasExceedHandler : Bool) : Bool :=
  (RateLimit bucket hasExceedHandler).protectedInvoked

/-- `"[global]"`, the sentinel bucket name selecting global scope. -/
def globalBucketId : String := "[global]"

/-- Bucket-id derivation of `rateLimitMiddleware`:
global scope uses the route and method; per-caller scope appends
`req.user?.id ?? "[anonymous]"`. -/
def mwBucketId (bucketName baseUrl path method : String)
    (userId : Option String) : String :=
  if bucketName == globalBucketId then
    bucketName ++ ".\"" ++ baseUrl ++ path ++ ":" ++ method
  else
    bucketName ++ ".\"" ++ baseUrl ++ path ++ ":" ++ method ++ ".\"" ++
      userId.getD "[anonymous]"

/-- Bucket-id derivation of the `RateLimit` decorator: global scope uses
the class and method names; per-caller scope appends the user id when it
is truthy (`userFromReq?.id ? String(userFromReq.id) : "[anonymous]"` —
a falsy id such as the empty string becomes `"[anonymous]"`). -/
def decBucketId (bucketName className methodName : String)
    (userId : Option String) : String :=
  if bucketName == globalBucketId then
    bucketName ++ ".\"" ++ className ++ ":" ++ methodName ++ "\""
  else
    let user := match userId with
      | some s => if s == "" then "[anonymous]" else s
      | none => "[anonymous]"
    bucketName ++ ".\"" ++ className ++ ":" ++ methodName ++ "\"." ++ user

/-- Count of `'.'` characters in a string — the per-caller templates
always contain strictly more dots than the global template for the same
operation identity. -/
def countDots (s : String) : Nat := s.data.count '.'

/-- `RedisRateLimitStore.keyPrefix`. -/
def keyPrefix : String := "rl:bucket:"

/-- One hexadecimal digit, upper case, as produced by
`encodeURIComponent`'s percent-escapes. -/
def hexDigitChar (n : Nat) : Char :=
  if n < 10 then Char.ofNat (48 + n) else Char.ofNat (55 + n)

/-- UTF-8 bytes of a character (for percent-encoding). -/
def utf8Bytes (c : Char) : List Nat :=
  let n := c.toNat
  if n < 128 then [n]
  else if n < 2048 then [192 + n / 64, 128 + n % 64]
  else if n < 65536 then [224 + n / 4096, 128 + n / 64 % 64, 128 + n % 64]
  else [240 + n / 262144, 128 + n / 4096 % 64, 128 + n / 64 % 64, 128 + n % 64]

/-- Characters `encodeURIComponent` leaves unescaped. -/
def uriUnreserved (c : Char) : Bool :=
  c.isAlphanum || c ∈ ['-', '_', '.', '!', '~', '*', Char.ofNat 39, '(', ')']

/-- JavaScript's `encodeURIComponent`. -/
def encodeURIComponent (s : String) : String :=
  String.mk (s.data.flatMap (fun c =>
    if uriUnreserved c then [c]
    else (utf8Bytes c).flatMap
      (fun b => ['%', hexDigitChar (b / 16), hexDigitChar (b % 16)])))

/-- `RedisRateLimitStore.bucketKey`. -/
def bucketKey (bucketId : String) : String :=
  keyPrefix ++ encodeURIComponent bucketId

/-- `RedisRateLimitStore.removeAll`: `FLUSHDB` — empties the whole
keyspace, not just the store's namespace. -/
def redisRemoveAll (_db : MemStore) : MemStore := []

/-- One store operation (the interface of `RateLimitStore`). -/
inductive StoreOp where
  | get (bucketId : String) (cap win now : Int)
  | remove (bucketId : String)
  | removeAll
  deriving Repr, DecidableEq

/-- Effect of one operation on the in-memory store. -/
def memApplyOp (s : MemStore) : StoreOp → MemStore
  | .get id cap win now => (memGetBucket s id cap win now).2
  | .remove id => storeDel s id
  | .removeAll => []

/-- Effect of one operation on the Redis keyspace (the `get` case is the
atomic Lua script writing back under `bucketKey`). -/
def redisApplyOp (db : MemStore) : StoreOp → MemStore
  | .get id cap win now =>
      storeSet db (bucketKey id)
        (luaRefillConsume (storeGet db (bucketKey id)) id cap win now)
  | .remove id => storeDel db (bucketKey id)
  | .removeAll => redisRemoveAll db

/-- A well-configured operation: bucket creation arguments are positive. -/
def opValid : StoreOp → Bool
  | .get _ cap win _ => decide (1 ≤ cap) && decide (1 ≤ win)
  | _ => true

/-- The spec's record invariant `0 ≤ tokens ≤ capacity` over a store. -/
def storeInv (s : MemStore) : Prop :=
  ∀ p ∈ s, 0 ≤ p.2.tokens ∧ p.2.tokens ≤ p.2.rateLimitAllowedCalls

/-- The successive records returned by repeated `getBucket` calls on the
in-memory store for one bucket id at the given access times. -/
def memReturnsAux (s : MemStore) (bucketId : String) (cap win : Int) :
    List Int → List RateLimitRecord
  | [] => []
  | now :: ts =>
      let r := memGetBucket s bucketId cap win now
      r.1 :: memReturnsAux r.2 bucketId cap win ts

/-- Whether some access in the sequence observes
`now - resetTime > rateLimitTimeSpan` on the in-memory store (i.e. the
window elapses during the run). -/
def memObservesElapsed (s : MemStore) (bucketId : String) (cap win : Int) :
    List Int → Bool
  | [] => false
  | now :: ts =>
      (match storeGet s bucketId with
       | none => false
       | some b => decide (now - b.resetTime > b.rateLimitTimeSpan)) ||
      memObservesElapsed (memGetBucket s bucketId cap win now).2 bucketId cap win ts

/-- The successive records returned by repeated executions of the Redis
script for one key at the given access times. -/
def luaReturnsAux (st : Option RateLimitRecord) (bucketId : String) (cap win : Int) :
    List Int → List RateLimitRecord
  | [] => []
  | now :: ts =>
      let r := luaRefillConsume st bucketId cap win now
      r :: luaReturnsAux (some r) bucketId cap win ts

/-- Whether some access in the sequence observes
`now - resetTime > rateLimitTimeSpan` under the Redis script. -/
def luaObservesElapsed (st : Option RateLimitRecord) (bucketId : String) (cap win : Int) :
    List Int → Bool
  | [] => false
  | now :: ts =>
      (match st with
       | none => false
       | some b => decide (now - b.resetTime > b.rateLimitTimeSpan)) ||
      luaObservesElapsed (some (luaRefillConsume st bucketId cap win now))
        bucketId cap win ts

/-- Both entry points admit (invoke the protected continuation / original
method) exactly when the fetched record has `tokens ≥ 1`, with or
without an exceed handler. -/
theorem mwAdmits_eq_tokens (b : RateLimitRecord) (hh : Bool) :
    mwAdmits b hh = decide (1 ≤ b.tokens) := by
  cases hh <;> rfl

theorem decAdmits_eq_tokens (b : RateLimitRecord) (hh : Bool) :
    decAdmits b hh = decide (1 ≤ b.tokens) := by
  unfold decAdmits RateLimit
  split_ifs with h1 h2 <;> simp_all [ge_iff_le]

/-- C2: the claim (reset-then-consume on a window-elapsed access, returned
tokens = capacity − 1) holds for the Redis script but fails on the
in-memory store, whose `else if` skips the consume decision once the
record was reset: at the failing input (existing bucket, capacity 2,
window 1000, tokens 0, windowStartedAt 0, accessed at now = 1001) the
in-memory `getBucket` returns tokens = 2, not 2 − 1; the Lua script at
the same input returns 2 − 1 as the spec requires. -/
theorem memory_reset_skips_consume :
    (memGetBucketR (some ⟨"b", 2, 1000, 0, 0, 500⟩) "b" 2 1000 1001).tokens = 2
    ∧ (luaRefillConsume (some ⟨"b", 2, 1000, 0, 0, 500⟩) "b" 2 1000 1001).tokens = 2 - 1 := by
  decide

/-- C3: the claim fails on the middleware: with a record of tokens = 1
(≥ 1) the middleware invokes `next()` but, lacking a `return`, still
falls through — with no exceed handler it throws the 429 error, with a
handler it invokes the handler.  (The decorator behaves as claimed.) -/
theorem middleware_admits_then_throws :
    rateLimitMiddleware ⟨"b", 2, 1000, 1, 0, 100⟩ false
      = ⟨true, false, true⟩
    ∧ rateLimitMiddleware ⟨"b", 2, 1000, 1, 0, 100⟩ true
      = ⟨true, true, false⟩
    ∧ RateLimit ⟨"b", 2, 1000, 1, 0, 100⟩ false
      = ⟨true, false, false⟩ := by
  decide

/-- C4: the claim fails: when the eval result reports `ok ≠ 1` the Redis
`getBucket` does not raise anything — it silently returns, and persists
via `hmset`, a record with full tokens (tokens = capacity = 5 at the
failing input), exactly the fail-open fallback the spec forbids. -/
theorem redis_fallback_returns_full_tokens :
    (redisGetBucketFromEval (0, 0, 0, 0) "b" 5 1000 42).1.tokens = 5
    ∧ (redisGetBucketFromEval (0, 0, 0, 0) "b" 5 1000 42).2
        = some ((redisGetBucketFromEval (0, 0, 0, 0) "b" 5 1000 42).1) := by
  decide

/-- C5 counterexample: on an absent bucket (capacity 2, window 1000,
now = 0) the two store implementations disagree — the in-memory store
creates the record with full tokens (2) while the Lua script creates it
and immediately consumes (1) — so they do not produce the same record
for every prior state. -/
theorem stores_differ_on_fresh_bucket :
    memGetBucketR none "b" 2 1000 0 ≠ luaRefillConsume none "b" 2 1000 0
    ∧ (memGetBucketR none "b" 2 1000 0).tokens = 2
    ∧ (luaRefillConsume none "b" 2 1000 0).tokens = 1 := by
  decide

/-- C5 (amended): for an existing bucket whose stored `bucketId` matches
the requested id and whose window has not elapsed
(`now − windowStartedAt ≤ windowMs`), the in-memory `getBucket` and the
Redis script produce identical records (same tokens, windowStartedAt,
lastUpdatedAt), hence the same admission decision; they differ when the
bucket is absent (or the window has elapsed). -/
theorem stores_agree_within_window (b : RateLimitRecord) (bucketId : String)
    (cap win now : Int) (hid : b.bucketId = bucketId)
    (hwin : now - b.resetTime ≤ b.rateLimitTimeSpan) :
    memGetBucketR (some b) bucketId cap win now
      = luaRefillConsume (some b) bucketId cap win now := by
  cases b with
  | mk bid cap' win' tk rt lu =>
    simp only [RateLimitRecord.bucketId] at hid
    subst hid
    simp only [RateLimitRecord.resetTime, RateLimitRecord.rateLimitTimeSpan] at hwin
    simp only [memGetBucketR, luaRefillConsume]
    split_ifs <;> first | rfl | (exfalso; omega)

theorem stores_agree_within_window_witness :
    ((⟨"c", 3, 1000, 2, 50, 60⟩ : RateLimitRecord).bucketId = "c"
      ∧ (900 : Int) - (⟨"c", 3, 1000, 2, 50, 60⟩ : RateLimitRecord).resetTime
          ≤ (⟨"c", 3, 1000, 2, 50, 60⟩ : RateLimitRecord).rateLimitTimeSpan)
    ∧ memGetBucketR (some ⟨"c", 3, 1000, 2, 50, 60⟩) "c" 3 1000 900
      = luaRefillConsume (some ⟨"c", 3, 1000, 2, 50, 60⟩) "c" 3 1000 900 :=
  ⟨⟨by decide, by decide⟩,
    stores_agree_within_window ⟨"c", 3, 1000, 2, 50, 60⟩ "c" 3 1000 900
      (by decide) (by decide)⟩

/-- C6: the claim fails: given the very same record (tokens = 3, so the
call is admitted) and no overflow handler, the middleware and the
decorator do not reach the same decision — the middleware invokes the
continuation and then still throws the 429 error, while the decorator
invokes the method and returns normally. -/
theorem middleware_decorator_decisions_differ :
    rateLimitMiddleware ⟨"b", 5, 1000, 3, 0, 0⟩ false
      ≠ RateLimit ⟨"b", 5, 1000, 3, 0, 0⟩ false
    ∧ (rateLimitMiddleware ⟨"b", 5, 1000, 3, 0, 0⟩ false).throws429 = true
    ∧ (RateLimit ⟨"b", 5, 1000, 3, 0, 0⟩ false).throws429 = false := by
  decide

/-- C8 counterexample: calling `getBucket` with capacity 0 and window 0
on a fresh bucket id does not raise anything and does store a record —
the in-memory store creates and keeps `{tokens = 0, …}` for that id. -/
theorem invalid_config_record_stored :
    storeGet (memGetBucket [] "b" 0 0 5).2 "b" = some ⟨"b", 0, 0, 0, 5, 5⟩ := by
  decide

/-- C8 (amended): neither store validates `capacity`/`windowMs` at bucket
creation: with `capacity ≤ 0` a record with `tokens = capacity` is
created, stored and returned (no `ConfigurationError` exists in the
code); both enforcement entry points then deny the call since
`tokens < 1`, and the Lua script likewise stores `tokens = capacity`. -/
theorem no_validation_at_creation (bucketId : String) (cap win now : Int)
    (hcap : cap ≤ 0) :
    (memGetBucketR none bucketId cap win now).tokens = cap
    ∧ storeGet (memGetBucket [] bucketId cap win now).2 bucketId
        = some (memGetBucketR none bucketId cap win now)
    ∧ mwAdmits (memGetBucketR none bucketId cap win now) false = false
    ∧ decAdmits (memGetBucketR none bucketId cap win now) false = false
    ∧ (luaRefillConsume none bucketId cap win now).tokens = cap := by
  refine ⟨rfl, ?_, ?_, ?_, ?_⟩
  · simp [memGetBucket, storeGet, storeSet, List.find?]
  · rw [mwAdmits_eq_tokens]
    have htk : (memGetBucketR none bucketId cap win now).tokens = cap := rfl
    rw [htk, decide_eq_false_iff_not]
    omega
  · rw [decAdmits_eq_tokens]
    have htk : (memGetBucketR none bucketId cap win now).tokens = cap := rfl
    rw [htk, decide_eq_false_iff_not]
    omega
  · simp only [luaRefillConsume]
    split_ifs <;> omega

theorem no_validation_at_creation_witness :
    ((0 : Int) ≤ 0)
    ∧ ((memGetBucketR none "w" 0 7 3).tokens = 0
    ∧ storeGet (memGetBucket [] "w" 0 7 3).2 "w" = some (memGetBucketR none "w" 0 7 3)
    ∧ mwAdmits (memGetBucketR none "w" 0 7 3) false = false
    ∧ decAdmits (memGetBucketR none "w" 0 7 3) false = false
    ∧ (luaRefillConsume none "w" 0 7 3).tokens = 0) :=
  ⟨by decide, no_validation_at_creation "w" 0 7 3 (by decide)⟩

/-- C10: `removeAll` on the Redis store issues `FLUSHDB`: every key of
the backing database is deleted, including keys outside the store's
`"rl:bucket:"` namespace — any non-namespaced key present before is
absent afterwards. -/
theorem removeAll_flushes_entire_db (db : MemStore) (k : String)
    (_hmem : (storeGet db k).isSome = true)
    (_hns : k.startsWith keyPrefix = false) :
    storeGet (redisRemoveAll db) k = none := rfl

theorem removeAll_flushes_entire_db_witness :
    ((storeGet [("other:key", ⟨"x", 1, 1, 1, 0, 0⟩)] "other:key").isSome = true
      ∧ "other:key".startsWith keyPrefix = false)
    ∧ storeGet (redisRemoveAll [("other:key", ⟨"x", 1, 1, 1, 0, 0⟩)]) "other:key" = none :=
  ⟨⟨by decide, by decide⟩,
    removeAll_flushes_entire_db [("other:key", ⟨"x", 1, 1, 1, 0, 0⟩)] "other:key"
      (by decide) (by decide)⟩

theorem countDots_append (a b : String) :
    countDots (a ++ b) = countDots a + countDots b := by
  simp [countDots, String.data_append, List.count_append]

theorem strext (a b : String) (h : a.data = b.data) : a = b := by
  cases a; cases b; exact congrArg String.mk h

theorem mw_scope_distinct (name baseUrl path method : String) (u : Option String)
    (u1 : String) (hname : (name == globalBucketId) = false) :
    mwBucketId globalBucketId baseUrl path method u
      ≠ mwBucketId name baseUrl path method (some u1) := by
  intro h
  simp only [mwBucketId, beq_self_eq_true, if_true, hname, if_false, Bool.false_eq_true,
    Option.getD_some] at h
  have hc := congrArg countDots h
  simp only [countDots_append] at hc
  have h1 : countDots globalBucketId = 0 := by decide
  have h2 : countDots ".\"" = 1 := by decide
  have h3 : countDots ":" = 0 := by decide
  omega

theorem mw_user_inj (name baseUrl path method u1 u2 : String)
    (hname : (name == globalBucketId) = false)
    (h : mwBucketId name baseUrl path method (some u1)
       = mwBucketId name baseUrl path method (some u2)) : u1 = u2 := by
  simp only [mwBucketId, hname, if_false, Bool.false_eq_true, Option.getD_some] at h
  have h2 := congrArg String.data h
  simp only [String.data_append] at h2
  exact strext _ _ (List.append_cancel_left h2)

theorem dec_scope_distinct (name className methodName : String) (u : Option String)
    (u1 : String) (hname : (name == globalBucketId) = false) :
    decBucketId globalBucketId className methodName u
      ≠ decBucketId name className methodName (some u1) := by
  intro h
  simp only [decBucketId, beq_self_eq_true, if_true, hname, if_false, Bool.false_eq_true] at h
  have hc := congrArg countDots h
  simp only [countDots_append] at hc
  have h1 : countDots globalBucketId = 0 := by decide
  have h2 : countDots ".\"" = 1 := by decide
  have h3 : countDots ":" = 0 := by decide
  have h4 : countDots "\"" = 0 := by decide
  have h5 : countDots "\"." = 1 := by decide
  omega

theorem dec_user_inj (name className methodName u1 u2 : String)
    (hname : (name == globalBucketId) = false)
    (h1 : (u1 == "") = false) (h2 : (u2 == "") = false)
    (h : decBucketId name className methodName (some u1)
       = decBucketId name className methodName (some u2)) : u1 = u2 := by
  simp only [decBucketId, hname, if_false, Bool.false_eq_true, h1, h2] at h
  have hd := congrArg String.data h
  simp only [String.data_append] at hd
  exact strext _ _ (List.append_cancel_left hd)

/-- C9 counterexample: in the `RateLimit` decorator's per-caller scope,
the two distinct caller identities `""` and `"[anonymous]"` derive the
same bucket id — a falsy id is replaced by `"[anonymous]"` by the
truthiness test, so those callers share tokens. -/
theorem falsy_id_shares_anonymous_bucket :
    decBucketId "perUser" "UserController" "create" (some "")
      = decBucketId "perUser" "UserController" "create" (some "[anonymous]")
    ∧ ("" : String) ≠ "[anonymous]" := by
  decide

/-- C9 (amended): for one and the same operation identity, the global
scope bucket id is distinct from every per-caller scope bucket id, in
both entry points; under per-caller scope two distinct caller identities
derive distinct bucket ids in the middleware always, and in the
decorator whenever both identities are truthy (non-empty) — a falsy id
is treated as anonymous there and shares the `[anonymous]` bucket. -/
theorem scope_isolation (bucketName baseUrl path method className methodName : String)
    (u : Option String) (u1 u2 : String)
    (hname : (bucketName == globalBucketId) = false) :
    mwBucketId globalBucketId baseUrl path method u
      ≠ mwBucketId bucketName baseUrl path method (some u1)
    ∧ (u1 ≠ u2 →
        mwBucketId bucketName baseUrl path method (some u1)
          ≠ mwBucketId bucketName baseUrl path method (some u2))
    ∧ decBucketId globalBucketId className methodName u
      ≠ decBucketId bucketName className methodName (some u1)
    ∧ (u1 ≠ u2 → (u1 == "") = false → (u2 == "") = false →
        decBucketId bucketName className methodName (some u1)
          ≠ decBucketId bucketName className methodName (some u2)) :=
  ⟨mw_scope_distinct bucketName baseUrl path method u u1 hname,
   fun hne h => hne (mw_user_inj bucketName baseUrl path method u1 u2 hname h),
   dec_scope_distinct bucketName className methodName u u1 hname,
   fun hne h1 h2 h =>
     hne (dec_user_inj bucketName className methodName u1 u2 hname h1 h2 h)⟩

theorem scope_isolation_witness :
    (("perUser" == globalBucketId) = false)
    ∧ (mwBucketId globalBucketId "/api" "/users" "GET" none
        ≠ mwBucketId "perUser" "/api" "/users" "GET" (some "u1")
      ∧ mwBucketId "perUser" "/api" "/users" "GET" (some "u1")
        ≠ mwBucketId "perUser" "/api" "/users" "GET" (some "u2")
      ∧ decBucketId globalBucketId "UserController" "create" none
        ≠ decBucketId "perUser" "UserController" "create" (some "u1")
      ∧ decBucketId "perUser" "UserController" "create" (some "u1")
        ≠ decBucketId "perUser" "UserController" "create" (some "u2")) := by
  have main := scope_isolation "perUser" "/api" "/users" "GET" "UserController" "create"
    none "u1" "u2" (by decide)
  exact ⟨by decide, main.1, main.2.1 (by decide), main.2.2.1,
    main.2.2.2 (by decide) (by decide) (by decide)⟩

theorem storeGet_mem {s : MemStore} {k : String} {b : RateLimitRecord}
    (h : storeGet s k = some b) : ∃ p ∈ s, p.2 = b := by
  unfold storeGet at h
  rcases Option.map_eq_some'.mp h with ⟨pr, hfind, hsnd⟩
  exact ⟨pr, List.mem_of_find?_eq_some hfind, hsnd⟩

theorem mem_storeSet {p : String × RateLimitRecord} {s : MemStore} {k : String}
    {v : RateLimitRecord} (h : p ∈ storeSet s k v) : p = (k, v) ∨ p ∈ s := by
  unfold storeSet at h
  rcases List.mem_cons.mp h with h | h
  · exact Or.inl h
  · exact Or.inr (List.mem_filter.mp h).1

/-- The record produced by one in-memory `getBucket` keeps
`0 ≤ tokens ≤ capacity` when the store satisfied the invariant and the
creation capacity is positive. -/
theorem memGetBucketR_bounds (s : MemStore) (bucketId : String) (cap win now : Int)
    (hs : storeInv s) (hcap : 1 ≤ cap) :
    0 ≤ (memGetBucketR (storeGet s bucketId) bucketId cap win now).tokens
    ∧ (memGetBucketR (storeGet s bucketId) bucketId cap win now).tokens
      ≤ (memGetBucketR (storeGet s bucketId) bucketId cap win now).rateLimitAllowedCalls := by
  cases hget : storeGet s bucketId with
  | none => refine ⟨?_, ?_⟩ <;> simp only [memGetBucketR] <;> omega
  | some b0 =>
      obtain ⟨p, hp, hpb⟩ := storeGet_mem hget
      have hb0 := hs p hp
      rw [hpb] at hb0
      simp only [memGetBucketR]
      split_ifs <;> constructor <;> (try simp) <;> omega

/-- The record produced by one execution of the Lua script keeps
`0 ≤ tokens ≤ capacity` when the stored hash (if any) satisfied the
invariant and the creation capacity is positive. -/
theorem luaRefillConsume_bounds (existing : Option RateLimitRecord) (bucketId : String)
    (cap win now : Int)
    (hex : ∀ b ∈ existing, 0 ≤ b.tokens ∧ b.tokens ≤ b.rateLimitAllowedCalls)
    (hcap : 1 ≤ cap) :
    0 ≤ (luaRefillConsume existing bucketId cap win now).tokens
    ∧ (luaRefillConsume existing bucketId cap win now).tokens
      ≤ (luaRefillConsume existing bucketId cap win now).rateLimitAllowedCalls := by
  cases existing with
  | none => simp only [luaRefillConsume]; split_ifs <;> constructor <;> (try simp) <;> omega
  | some b0 =>
      have hb0 := hex b0 (Option.mem_some_iff.mpr rfl)
      simp only [luaRefillConsume]
      split_ifs <;> constructor <;> (try simp) <;> omega

theorem storeInv_storeSet {s : MemStore} {k : String} {v : RateLimitRecord}
    (hs : storeInv s) (hv : 0 ≤ v.tokens ∧ v.tokens ≤ v.rateLimitAllowedCalls) :
    storeInv (storeSet s k v) := by
  intro p hp
  rcases mem_storeSet hp with h | h
  · rw [h]; exact hv
  · exact hs p h

theorem storeInv_memApplyOp {s : MemStore} {op : StoreOp}
    (hs : storeInv s) (hop : opValid op = true) : storeInv (memApplyOp s op) := by
  cases op with
  | get id cap win now =>
      simp only [opValid, Bool.and_eq_true, decide_eq_true_eq] at hop
      exact storeInv_storeSet hs (memGetBucketR_bounds s id cap win now hs hop.1)
  | remove id => exact fun p hp => hs p (List.mem_filter.mp hp).1
  | removeAll => exact fun p hp => absurd hp (List.not_mem_nil p)

theorem storeInv_redisApplyOp {db : MemStore} {op : StoreOp}
    (hs : storeInv db) (hop : opValid op = true) : storeInv (redisApplyOp db op) := by
  cases op with
  | get id cap win now =>
      simp only [opValid, Bool.and_eq_true, decide_eq_true_eq] at hop
      refine storeInv_storeSet hs (luaRefillConsume_bounds _ id cap win now ?_ hop.1)
      intro b hb
      cases hget : storeGet db (bucketKey id) with
      | none => rw [hget] at hb; exact absurd hb (by simp)
      | some b0 =>
          rw [hget] at hb
          obtain ⟨p, hp, hpb⟩ := storeGet_mem hget
          have := hs p hp
          rw [hpb] at this
          rwa [← Option.mem_some_iff.mp hb]
  | remove id => exact fun p hp => hs p (List.mem_filter.mp hp).1
  | removeAll => exact fun p hp => absurd hp (List.not_mem_nil p)

theorem storeInv_foldl_mem (ops : List StoreOp) :
    ∀ s : MemStore, storeInv s → (∀ op ∈ ops, opValid op = true) →
      storeInv (ops.foldl memApplyOp s) := by
  induction ops with
  | nil => intro s hs _; exact hs
  | cons op ops ih =>
      intro s hs hv
      exact ih _ (storeInv_memApplyOp hs (hv op (by simp)))
        (fun o ho => hv o (by simp [ho]))

theorem storeInv_foldl_redis (ops : List StoreOp) :
    ∀ db : MemStore, storeInv db → (∀ op ∈ ops, opValid op = true) →
      storeInv (ops.foldl redisApplyOp db) := by
  induction ops with
  | nil => intro s hs _; exact hs
  | cons op ops ih =>
      intro s hs hv
      exact ih _ (storeInv_redisApplyOp hs (hv op (by simp)))
        (fun o ho => hv o (by simp [ho]))

/-- C7: `0 ≤ tokens ≤ capacity` holds for every record of every store
state reachable from the empty store by any sequence of `getBucket`
(with creation arguments `capacity ≥ 1`, `windowMs ≥ 1`), `remove` and
`removeAll` operations — for the in-memory store and for the distributed
script acting on the Redis keyspace alike. -/
theorem tokens_bounds_invariant (ops : List StoreOp)
    (hv : ∀ op ∈ ops, opValid op = true) :
    storeInv (ops.foldl memApplyOp []) ∧ storeInv (ops.foldl redisApplyOp []) :=
  ⟨storeInv_foldl_mem ops [] (fun p hp => absurd hp (List.not_mem_nil p)) hv,
   storeInv_foldl_redis ops [] (fun p hp => absurd hp (List.not_mem_nil p)) hv⟩

theorem tokens_bounds_invariant_witness :
    (∀ op ∈ [StoreOp.get "b" 2 1000 0, StoreOp.get "b" 2 1000 10,
      StoreOp.get "c" 1 50 20, StoreOp.remove "c", StoreOp.get "b" 2 1000 1500,
      StoreOp.removeAll, StoreOp.get "b" 3 10 2000], opValid op = true)
    ∧ (storeInv ([StoreOp.get "b" 2 1000 0, StoreOp.get "b" 2 1000 10,
        StoreOp.get "c" 1 50 20, StoreOp.remove "c", StoreOp.get "b" 2 1000 1500,
        StoreOp.removeAll, StoreOp.get "b" 3 10 2000].foldl memApplyOp [])
      ∧ storeInv ([StoreOp.get "b" 2 1000 0, StoreOp.get "b" 2 1000 10,
        StoreOp.get "c" 1 50 20, StoreOp.remove "c", StoreOp.get "b" 2 1000 1500,
        StoreOp.removeAll, StoreOp.get "b" 3 10 2000].foldl redisApplyOp [])) :=
  ⟨by decide, tokens_bounds_invariant _ (by decide)⟩

/-- Helper for the run characterizations: the successive token values
produced by repeatedly decrement-clamping a starting count (one value
per access). -/
def tokensSeq (T : Int) : List Int → List Int
  | [] => []
  | _ :: ts => max 0 (T - 1) :: tokensSeq (max 0 (T - 1)) ts

theorem storeGet_storeSet (s : MemStore) (k : String) (v : RateLimitRecord) :
    storeGet (storeSet s k v) k = some v := by
  simp [storeGet, storeSet, List.find?]

theorem tokensSeq_length (T : Int) (ts : List Int) :
    (tokensSeq T ts).length = ts.length := by
  induction ts generalizing T with
  | nil => rfl
  | cons t ts ih => simp [tokensSeq, ih]

theorem tokensSeq_countP (ts : List Int) :
    ∀ T : Int, 0 ≤ T →
      (tokensSeq T ts).countP (fun x => decide (1 ≤ x))
        = min ts.length (T - 1).toNat := by
  induction ts with
  | nil => intro T _; simp [tokensSeq]
  | cons t ts ih =>
      intro T hT
      simp only [tokensSeq, List.countP_cons, List.length_cons]
      rw [ih (max 0 (T - 1)) (by omega)]
      simp only [decide_eq_true_eq]
      split_ifs <;> omega

theorem tokensSeq_getElem? (ts : List Int) :
    ∀ (T : Int) (i : Nat), 0 ≤ T →
      (tokensSeq T ts)[i]?
        = if i < ts.length then some (max 0 (T - ((i : Int) + 1))) else none := by
  induction ts with
  | nil => intro T i _; simp [tokensSeq]
  | cons t ts ih =>
      intro T i hT
      cases i with
      | zero => simp [tokensSeq]
      | succ i =>
          simp only [tokensSeq, List.getElem?_cons_succ, List.length_cons]
          rw [ih (max 0 (T - 1)) i (by omega)]
          split_ifs with h1 h2 <;>
            first
            | rfl
            | (exfalso; omega)
            | (simp only [Option.some.injEq]; push_cast; omega)

/-- Within one window (no access observes an elapsed window), the token
values returned by the in-memory store starting from an existing record
are the decrement-clamp sequence of the stored count. -/
theorem memReturnsAux_tokens (bucketId : String) (cap win : Int) :
    ∀ (ts : List Int) (s : MemStore) (b : RateLimitRecord),
      storeGet s bucketId = some b → 0 ≤ b.tokens →
      memObservesElapsed s bucketId cap win ts = false →
      (memReturnsAux s bucketId cap win ts).map (fun r => r.tokens)
        = tokensSeq b.tokens ts := by
  intro ts
  induction ts with
  | nil => intro s b _ _ _; rfl
  | cons t ts ih =>
      intro s b hget hnn hobs
      simp only [memObservesElapsed, hget] at hobs
      rw [Bool.or_eq_false_iff] at hobs
      obtain ⟨h1, h2⟩ := hobs
      rw [decide_eq_false_iff_not] at h1
      have hstep : memGetBucket s bucketId cap win t
          = (memGetBucketR (some b) bucketId cap win t,
             storeSet s bucketId (memGetBucketR (some b) bucketId cap win t)) := by
        simp only [memGetBucket, hget]
      have htok : (memGetBucketR (some b) bucketId cap win t).tokens
          = max 0 (b.tokens - 1) := by
        simp only [memGetBucketR]
        rw [if_neg h1]
        split_ifs <;> first | omega | (dsimp only; omega)
      rw [hstep] at h2
      dsimp only at h2
      simp only [memReturnsAux, hstep, tokensSeq]
      try dsimp only
      rw [List.map_cons]
      have htail := ih (storeSet s bucketId (memGetBucketR (some b) bucketId cap win t))
        (memGetBucketR (some b) bucketId cap win t)
        (storeGet_storeSet s bucketId _) (by rw [htok]; omega) h2
      rw [htail, htok]

/-- Lua-script analogue of `memReturnsAux_tokens`. -/
theorem luaReturnsAux_tokens (bucketId : String) (cap win : Int) :
    ∀ (ts : List Int) (b : RateLimitRecord),
      0 ≤ b.tokens →
      luaObservesElapsed (some b) bucketId cap win ts = false →
      (luaReturnsAux (some b) bucketId cap win ts).map (fun r => r.tokens)
        = tokensSeq b.tokens ts := by
  intro ts
  induction ts with
  | nil => intro b _ _; rfl
  | cons t ts ih =>
      intro b hnn hobs
      simp only [luaObservesElapsed] at hobs
      rw [Bool.or_eq_false_iff] at hobs
      obtain ⟨h1, h2⟩ := hobs
      rw [decide_eq_false_iff_not] at h1
      have htok : (luaRefillConsume (some b) bucketId cap win t).tokens
          = max 0 (b.tokens - 1) := by
        simp only [luaRefillConsume]
        rw [if_neg h1]
        split_ifs <;> omega
      simp only [luaReturnsAux, tokensSeq]
      try dsimp only
      rw [List.map_cons]
      have htail := ih (luaRefillConsume (some b) bucketId cap win t)
        (by rw [htok]; omega) h2
      rw [htail, htok]

/-- A fresh in-memory run returns full capacity on the creating access
and the decrement-clamp sequence afterwards. -/
theorem memReturnsAux_tokens_empty (bucketId : String) (cap win : Int)
    (hcap : 0 ≤ cap) (t : Int) (ts : List Int)
    (hobs : memObservesElapsed [] bucketId cap win (t :: ts) = false) :
    (memReturnsAux [] bucketId cap win (t :: ts)).map (fun r => r.tokens)
      = cap :: tokensSeq cap ts := by
  have hget : storeGet ([] : MemStore) bucketId = none := rfl
  simp only [memObservesElapsed, hget, Bool.false_or] at hobs
  have hstep : memGetBucket [] bucketId cap win t
      = (memGetBucketR none bucketId cap win t,
         storeSet [] bucketId (memGetBucketR none bucketId cap win t)) := rfl
  rw [hstep] at hobs
  dsimp only at hobs
  simp only [memReturnsAux, hstep]
  try dsimp only
  rw [List.map_cons]
  have htail := memReturnsAux_tokens bucketId cap win ts
    (storeSet [] bucketId (memGetBucketR none bucketId cap win t))
    (memGetBucketR none bucketId cap win t)
    (storeGet_storeSet [] bucketId _) hcap hobs
  rw [htail]
  rfl

/-- A fresh Lua-script run consumes already on the creating access: the
returned token values are the decrement-clamp sequence of the capacity
over the whole run. -/
theorem luaReturnsAux_tokens_empty (bucketId : String) (cap win : Int)
    (hcap : 1 ≤ cap) (hwin : 0 ≤ win) (t : Int) (ts : List Int)
    (hobs : luaObservesElapsed none bucketId cap win (t :: ts) = false) :
    (luaReturnsAux none bucketId cap win (t :: ts)).map (fun r => r.tokens)
      = tokensSeq cap (t :: ts) := by
  simp only [luaObservesElapsed, Bool.false_or] at hobs
  have htok : (luaRefillConsume none bucketId cap win t).tokens
      = max 0 (cap - 1) := by
    have h0 : ¬(t - t > win) := by omega
    have hc : cap > 0 := by omega
    simp only [luaRefillConsume]
    rw [if_neg h0, if_pos hc]
    omega
  simp only [luaReturnsAux, tokensSeq]
  try dsimp only
  rw [List.map_cons]
  have htail := luaReturnsAux_tokens bucketId cap win ts
    (luaRefillConsume none bucketId cap win t) (by rw [htok]; omega) hobs
  rw [htail, htok]

theorem mem_run_countP (bucketId : String) (cap win : Int) (ts : List Int)
    (hcap : 1 ≤ cap)
    (hobs : memObservesElapsed [] bucketId cap win ts = false) :
    (memReturnsAux [] bucketId cap win ts).countP (fun r => decide (1 ≤ r.tokens))
      ≤ cap.toNat := by
  cases ts with
  | nil => simp [memReturnsAux]
  | cons t ts =>
      have hmap := memReturnsAux_tokens_empty bucketId cap win (by omega) t ts hobs
      have hco : ((memReturnsAux [] bucketId cap win (t :: ts)).map
            (fun r => r.tokens)).countP (fun x => decide (1 ≤ x))
          = (memReturnsAux [] bucketId cap win (t :: ts)).countP
              (fun r => decide (1 ≤ r.tokens)) := by
        rw [List.countP_map]
        rfl
      rw [← hco, hmap, List.countP_cons, tokensSeq_countP ts cap (by omega)]
      simp only [decide_eq_true_eq]
      rw [if_pos hcap]
      omega

theorem lua_run_countP (bucketId : String) (cap win : Int) (ts : List Int)
    (hcap : 1 ≤ cap) (hwin : 0 ≤ win)
    (hobs : luaObservesElapsed none bucketId cap win ts = false) :
    (luaReturnsAux none bucketId cap win ts).countP (fun r => decide (1 ≤ r.tokens))
      ≤ cap.toNat := by
  cases ts with
  | nil => simp [luaReturnsAux]
  | cons t ts =>
      have hmap := luaReturnsAux_tokens_empty bucketId cap win hcap hwin t ts hobs
      have hco : ((luaReturnsAux none bucketId cap win (t :: ts)).map
            (fun r => r.tokens)).countP (fun x => decide (1 ≤ x))
          = (luaReturnsAux none bucketId cap win (t :: ts)).countP
              (fun r => decide (1 ≤ r.tokens)) := by
        rw [List.countP_map]
        rfl
      rw [← hco, hmap, tokensSeq_countP (t :: ts) cap (by omega)]
      omega

theorem mem_run_denies (bucketId : String) (cap win : Int) (ts : List Int)
    (hcap : 1 ≤ cap)
    (hobs : memObservesElapsed [] bucketId cap win ts = false) :
    ((memReturnsAux [] bucketId cap win ts)[cap.toNat]?).all
      (fun r => decide (r.tokens < 1)) = true := by
  cases ts with
  | nil => rfl
  | cons t ts =>
      have hmap := memReturnsAux_tokens_empty bucketId cap win (by omega) t ts hobs
      have hg : ((memReturnsAux [] bucketId cap win (t :: ts))[cap.toNat]?).map
            (fun r => r.tokens) = (cap :: tokensSeq cap ts)[cap.toNat]? := by
        rw [← hmap, List.getElem?_map]
      obtain ⟨m, hm⟩ : ∃ m, cap.toNat = m + 1 := ⟨cap.toNat - 1, by omega⟩
      have hval : (cap :: tokensSeq cap ts)[cap.toNat]?
          = if m < ts.length then some 0 else none := by
        rw [hm, List.getElem?_cons_succ, tokensSeq_getElem? ts cap m (by omega)]
        split_ifs with h
        · simp only [Option.some.injEq]; omega
        · rfl
      rw [hval] at hg
      split_ifs at hg with h
      · cases hmem : (memReturnsAux [] bucketId cap win (t :: ts))[cap.toNat]? with
        | none => simp [hmem]
        | some r =>
            rw [hmem] at hg
            simp only [Option.map_some', Option.some.injEq] at hg
            simp [hmem, Option.all, hg]
      · have hnone : (memReturnsAux [] bucketId cap win (t :: ts))[cap.toNat]? = none :=
          Option.map_eq_none'.mp hg
        simp [hnone]

theorem lua_run_denies (bucketId : String) (cap win : Int) (ts : List Int)
    (hcap : 1 ≤ cap) (hwin : 0 ≤ win)
    (hobs : luaObservesElapsed none bucketId cap win ts = false) :
    ((luaReturnsAux none bucketId cap win ts)[cap.toNat]?).all
      (fun r => decide (r.tokens < 1)) = true := by
  cases ts with
  | nil => rfl
  | cons t ts =>
      have hmap := luaReturnsAux_tokens_empty bucketId cap win hcap hwin t ts hobs
      have hg : ((luaReturnsAux none bucketId cap win (t :: ts))[cap.toNat]?).map
            (fun r => r.tokens) = (tokensSeq cap (t :: ts))[cap.toNat]? := by
        rw [← hmap, List.getElem?_map]
      have hval : (tokensSeq cap (t :: ts))[cap.toNat]?
          = if cap.toNat < ts.length + 1 then some 0 else none := by
        rw [tokensSeq_getElem? (t :: ts) cap _ (by omega)]
        simp only [List.length_cons]
        split_ifs with h
        · simp only [Option.some.injEq]; omega
        · rfl
      rw [hval] at hg
      split_ifs at hg with h
      · cases hmem : (luaReturnsAux none bucketId cap win (t :: ts))[cap.toNat]? with
        | none => simp [hmem]
        | some r =>
            rw [hmem] at hg
            simp only [Option.map_some', Option.some.injEq] at hg
            simp [hmem, Option.all, hg]
      · have hnone : (luaReturnsAux none bucketId cap win (t :: ts))[cap.toNat]? = none :=
          Option.map_eq_none'.mp hg
        simp [hnone]

theorem not_mwAdmits (r : RateLimitRecord) (hh : Bool) :
    (!(mwAdmits r hh)) = decide (r.tokens < 1) := by
  rw [mwAdmits_eq_tokens]
  by_cases h : (1 : Int) ≤ r.tokens
  · simp [h, show ¬(r.tokens < 1) from by omega]
  · simp [h, show r.tokens < 1 from by omega]

theorem not_decAdmits (r : RateLimitRecord) (hh : Bool) :
    (!(decAdmits r hh)) = decide (r.tokens < 1) := by
  rw [decAdmits_eq_tokens]
  by_cases h : (1 : Int) ≤ r.tokens
  · simp [h, show ¬(r.tokens < 1) from by omega]
  · simp [h, show r.tokens < 1 from by omega]

/-- C1: for every capacity ≥ 1 and window ≥ 1 and every sequence of
enforcement-layer calls on one bucket id whose accesses all stay within
one window (no access observes `now − windowStartedAt > windowMs`), at
most `capacity` of the calls are admitted — i.e. have the protected
continuation (middleware) or the original method (decorator) invoked —
and the `(capacity+1)`-th call, when it exists, is denied; this holds
with the in-memory store and with the distributed script alike, for
either entry point, with or without an exceed handler.  (Admission here
is the enforcement layer's own admit branch; what a custom exceed
handler does downstream on denied calls is its own business.) -/
theorem no_over_admission (bucketId : String) (cap win : Int) (hh : Bool)
    (ts : List Int) (hcap : 1 ≤ cap) (hwin : 1 ≤ win)
    (hmem : memObservesElapsed [] bucketId cap win ts = false)
    (hlua : luaObservesElapsed none bucketId cap win ts = false) :
    ((memReturnsAux [] bucketId cap win ts).countP (fun r => mwAdmits r hh) ≤ cap.toNat
      ∧ ((memReturnsAux [] bucketId cap win ts)[cap.toNat]?).all
          (fun r => !(mwAdmits r hh)) = true)
    ∧ ((memReturnsAux [] bucketId cap win ts).countP (fun r => decAdmits r hh) ≤ cap.toNat
      ∧ ((memReturnsAux [] bucketId cap win ts)[cap.toNat]?).all
          (fun r => !(decAdmits r hh)) = true)
    ∧ ((luaReturnsAux none bucketId cap win ts).countP (fun r => mwAdmits r hh) ≤ cap.toNat
      ∧ ((luaReturnsAux none bucketId cap win ts)[cap.toNat]?).all
          (fun r => !(mwAdmits r hh)) = true)
    ∧ ((luaReturnsAux none bucketId cap win ts).countP (fun r => decAdmits r hh) ≤ cap.toNat
      ∧ ((luaReturnsAux none bucketId cap win ts)[cap.toNat]?).all
          (fun r => !(decAdmits r hh)) = true) := by
  have hmw : (fun r => mwAdmits r hh) = fun r : RateLimitRecord => decide (1 ≤ r.tokens) :=
    funext (fun r => mwAdmits_eq_tokens r hh)
  have hdec : (fun r => decAdmits r hh) = fun r : RateLimitRecord => decide (1 ≤ r.tokens) :=
    funext (fun r => decAdmits_eq_tokens r hh)
  have hnmw : (fun r => !(mwAdmits r hh)) = fun r : RateLimitRecord => decide (r.tokens < 1) :=
    funext (fun r => not_mwAdmits r hh)
  have hndec : (fun r => !(decAdmits r hh)) = fun r : RateLimitRecord => decide (r.tokens < 1) :=
    funext (fun r => not_decAdmits r hh)
  rw [hmw, hdec, hnmw, hndec]
  exact ⟨⟨mem_run_countP bucketId cap win ts hcap hmem,
          mem_run_denies bucketId cap win ts hcap hmem⟩,
         ⟨mem_run_countP bucketId cap win ts hcap hmem,
          mem_run_denies bucketId cap win ts hcap hmem⟩,
         ⟨lua_run_countP bucketId cap win ts hcap (by omega) hlua,
          lua_run_denies bucketId cap win ts hcap (by omega) hlua⟩,
         ⟨lua_run_countP bucketId cap win ts hcap (by omega) hlua,
          lua_run_denies bucketId cap win ts hcap (by omega) hlua⟩⟩

theorem no_over_admission_witness :
    ((1 : Int) ≤ 2 ∧ (1 : Int) ≤ 1000
      ∧ memObservesElapsed [] "b" 2 1000 [0, 100, 200] = false
      ∧ luaObservesElapsed none "b" 2 1000 [0, 100, 200] = false)
    ∧ (((memReturnsAux [] "b" 2 1000 [0, 100, 200]).countP
          (fun r => mwAdmits r false) ≤ (2 : Int).toNat
      ∧ ((memReturnsAux [] "b" 2 1000 [0, 100, 200])[(2 : Int).toNat]?).all
          (fun r => !(mwAdmits r false)) = true)
    ∧ ((memReturnsAux [] "b" 2 1000 [0, 100, 200]).countP
          (fun r => decAdmits r false) ≤ (2 : Int).toNat
      ∧ ((memReturnsAux [] "b" 2 1000 [0, 100, 200])[(2 : Int).toNat]?).all
          (fun r => !(decAdmits r false)) = true)
    ∧ ((luaReturnsAux none "b" 2 1000 [0, 100, 200]).countP
          (fun r => mwAdmits r false) ≤ (2 : Int).toNat
      ∧ ((luaReturnsAux none "b" 2 1000 [0, 100, 200])[(2 : Int).toNat]?).all
          (fun r => !(mwAdmits r false)) = true)
    ∧ ((luaReturnsAux none "b" 2 1000 [0, 100, 200]).countP
          (fun r => decAdmits r false) ≤ (2 : Int).toNat
      ∧ ((luaReturnsAux none "b" 2 1000 [0, 100, 200])[(2 : Int).toNat]?).all
          (fun r => !(decAdmits r false)) = true)) :=
  ⟨⟨by decide, by decide, by decide, by decide⟩,
    no_over_admission "b" 2 1000 false [0, 100, 200]
      (by decide) (by decide) (by decide) (by decide)⟩

